import Mathlib

/-! Per-connection client handler (`clientHandler.go`).

A shallow embedding of the three tasks of `clientHandler.go`:

* the Command Parser (`parseCommand`, `setUsername`, `sendError`),
* the Outbound Writer (`writeSocket`),
* the Inbound Reader (`readSocket`).

Conventions of the embedding.

* A Go `[]byte` is a `List UInt8`; a Go `string` obtained from a literal or from
  the JSON decoder is valid UTF-8 and is a Lean `String`; Go's builtin `len` on
  a string counts the bytes of the UTF-8 encoding.
* A channel is the list of the values it carries, oldest first.
* `encoding/json` and the websocket connection are libraries outside the
  repository: their results are inputs of the model (`Json`, `ConnErrs`,
  `ReadResult`).
* Calls to the logger write to a process-wide log only; they influence neither
  the control flow nor the player, and are left out.
-/

namespace ClientHandler

/-! ## Data model -/

/-- Go `[]byte`. -/
abbrev Bytes := List UInt8

/-- UTF-8 encoding of a string, the conversion `[]byte(s)`. -/
def utf8 (s : String) : Bytes := s.data.flatMap String.utf8EncodeChar

/-- Go builtin `len` applied to a string: the number of bytes of its encoding. -/
def len (s : String) : Nat := s.utf8ByteSize

/-- Status enumeration: `NoUsername = 0`, `ReadyToPlay = 1`, `Waiting = 2`. -/
inductive Status where
  | NoUsername
  | ReadyToPlay
  | Waiting
deriving DecidableEq, Repr

/-- Modelled from the spec: the declaration of `Command` is not in
`clientHandler.go`; the wire schema gives it two string fields, `type` and
`value`. The zero value `Command{}` has both fields empty. The Go field `Type`
is written `type` here and in `ClientInfo`, `Type` being reserved. -/
structure Command where
  type : String := ""
  Value : String := ""
deriving DecidableEq, Repr

/-- Modelled from the spec: the declaration of `ClientInfo` is not in
`clientHandler.go`; the outbound envelope has two string fields, `type` and
`message`. -/
structure ClientInfo where
  type : String := ""
  Message : String := ""
deriving DecidableEq, Repr

/-- The two entry points of `encoding/json` the handler calls. `Unmarshal frame c`
is `json.Unmarshal(frame, &c)`: the command as the decoder leaves it, and
whether the returned error is non-nil. `Marshal v` is `json.Marshal(v)`: the
returned bytes and whether the returned error is non-nil. -/
structure Json where
  Unmarshal : Bytes → Command → Command × Bool
  Marshal : ClientInfo → Bytes × Bool

/-- Modelled from the spec: the declaration of `Player` is not in
`clientHandler.go`. The fields kept are the ones the Command Parser touches:
`Username`, `status`, and `qSend`, the payloads sent on the outbound channel so
far, oldest first. A fresh player has no username and status `NoUsername`. -/
structure Player where
  Username : String := ""
  status : Status := Status.NoUsername
  qSend : List Bytes := []
deriving DecidableEq, Repr

/-! ## Command Parser -/

/-- Embedding of `sendError`: the envelope is marshalled and the returned bytes are sent on
`qSend`; a marshalling error is only logged. -/
def sendError (j : Json) (p : Player) (message : String) : Player :=
  let msg : ClientInfo := { type := "error", Message := message }
  let jsonString := (j.Marshal msg).1
  { p with qSend := p.qSend ++ [jsonString] }

/-- Embedding of `setUsername`: the length guard comes first, then the status guard, then
the assignment. -/
def setUsername (j : Json) (p : Player) (cmd : Command) : Player :=
  let username := cmd.Value
  if len username > 14 then
    sendError j p "Username is too long! Max length 14"
  else if p.status ≠ Status.NoUsername then
    sendError j p "Username already set!"
  else
    { p with Username := username, status := Status.ReadyToPlay }

/-- The command left by `json.Unmarshal(incoming, &command)` on a fresh
`Command{}`. -/
def decode (j : Json) (incoming : Bytes) : Command :=
  (j.Unmarshal incoming {}).1

/-- One iteration of the loop of `parseCommand` on a frame received from
`qRecv`: decode (an error is only logged), then switch on the command type. -/
def parseCommandStep (j : Json) (p : Player) (incoming : Bytes) : Player :=
  let command := decode j incoming
  if command.type = "username" then
    setUsername j p command
  else if command.type = "move" then
    p
  else
    sendError j p "Invalid command type!"

/-- Embedding of `parseCommand`: the frames are the ones delivered by `qRecv` before it is
closed; the loop handles them in order and returns when the channel is
closed. -/
def parseCommand (j : Json) (p : Player) : List Bytes → Player
  | [] => p
  | incoming :: rest => parseCommand j (parseCommandStep j p incoming) rest

/-- Payload of the length error. -/
def tooLongError (j : Json) : Bytes :=
  (j.Marshal { type := "error", Message := "Username is too long! Max length 14" }).1

/-- Payload of the "already set" error. -/
def alreadySetError (j : Json) : Bytes :=
  (j.Marshal { type := "error", Message := "Username already set!" }).1

/-- Payload of the unknown-command error. -/
def invalidCommandError (j : Json) : Bytes :=
  (j.Marshal { type := "error", Message := "Invalid command type!" }).1

/-- The error a "username" command gets once the name is set: the length error
when its value has more than 14 bytes, the "already set" error otherwise. -/
def rejection (j : Json) (f : Bytes) : Bytes :=
  if 14 < len (decode j f).Value then tooLongError j else alreadySetError j

/-- A name of 14 characters, each of two bytes. -/
def accented14 : String := String.mk (List.replicate 14 'é')

/-! ## Outbound Writer -/

/-- A message written on the connection: a text message made of the chunks
written between `NextWriter` and `Close`, a ping, or a close message. -/
inductive WireMessage where
  | text (chunks : List Bytes)
  | ping
  | close
deriving DecidableEq, Repr

/-- Whether each connection call of one action of the writer returned an error:
`NextWriter`, `w.Write`, `w.Close`, `WriteMessage`. An error of
`SetWriteDeadline` is only logged and is left out. -/
structure ConnErrs where
  nextWriter : Bool := false
  write : Bool := false
  close : Bool := false
  writeMessage : Bool := false
deriving DecidableEq, Repr

/-- Program point of `writeSocket`: blocked in `select`; after the receive
`message, ok := <-p.qSend` with `ok` true; in the `for` loop before the test
`i < n`; returned. -/
inductive WriterPc where
  | select
  | received (message : Bytes)
  | draining (i n : Nat)
  | returned
deriving DecidableEq, Repr

/-- State of the writer task: its program point, the items buffered in the
channel `qSend` (oldest first), whether the channel is closed, the chunks
written so far to the current message writer `w`, and the messages written to
the peer (oldest first). -/
structure Writer where
  pc : WriterPc := WriterPc.select
  qSend : List Bytes := []
  closed : Bool := false
  w : List Bytes := []
  conn : List WireMessage := []
deriving DecidableEq, Repr

/-- What can happen next around the writer: a producer sends a payload on
`qSend`; the owner closes `qSend`; the ticker fires and `select` takes that
case; the writer executes its next action. The last two carry the errors the
connection returns. -/
inductive WriterEvent where
  | send (m : Bytes)
  | closeQueue
  | tick (e : ConnErrs)
  | run (e : ConnErrs)
deriving DecidableEq, Repr

/-- One event of `writeSocket`. The capacity of the channel is not modelled (a
full channel only delays a `send`); a `send` on a closed channel enqueues
nothing. A chunk or message whose write failed is not recorded. -/
def writeSocketStep (s : Writer) : WriterEvent → Writer
  | WriterEvent.send m => if s.closed then s else { s with qSend := s.qSend ++ [m] }
  | WriterEvent.closeQueue => { s with closed := true }
  | WriterEvent.tick e =>
    match s.pc with
    | WriterPc.select =>
      if e.writeMessage then { s with pc := WriterPc.returned }
      else { s with conn := s.conn ++ [WireMessage.ping] }
    | _ => s
  | WriterEvent.run e =>
    match s.pc with
    | WriterPc.select =>
      match s.qSend with
      | message :: rest => { s with pc := WriterPc.received message, qSend := rest }
      | [] =>
        if s.closed then
          { s with pc := WriterPc.returned,
                   conn := if e.writeMessage then s.conn else s.conn ++ [WireMessage.close] }
        else s
    | WriterPc.received message =>
      if e.nextWriter then { s with pc := WriterPc.returned }
      else
        { s with pc := WriterPc.draining 0 s.qSend.length,
                 w := if e.write then [] else [message] }
    | WriterPc.draining i n =>
      if i < n then
        match s.qSend with
        | m :: rest =>
          { s with pc := WriterPc.draining (i + 1) n, qSend := rest,
                   w := if e.write then s.w else s.w ++ [m] }
        | [] =>
          if s.closed then
            { s with pc := WriterPc.draining (i + 1) n,
                     w := if e.write then s.w else s.w ++ [[]] }
          else s
      else if e.close then { s with pc := WriterPc.returned, w := [] }
      else { s with pc := WriterPc.select, conn := s.conn ++ [WireMessage.text s.w], w := [] }
    | WriterPc.returned => s

/-- Embedding of `writeSocket` along a schedule of events. -/
def writeSocket (s : Writer) : List WriterEvent → Writer
  | [] => s
  | ev :: rest => writeSocket (writeSocketStep s ev) rest

/-- No connection call of the event returned an error. -/
def noFailure : WriterEvent → Bool
  | WriterEvent.tick e => !e.nextWriter && !e.write && !e.close && !e.writeMessage
  | WriterEvent.run e => !e.nextWriter && !e.write && !e.close && !e.writeMessage
  | _ => true

/-- The event is the writer executing an action. -/
def isRun : WriterEvent → Bool
  | WriterEvent.run _ => true
  | _ => false

/-- The event is the ticker case of `select`. -/
def isTick : WriterEvent → Bool
  | WriterEvent.tick _ => true
  | _ => false

/-- The payloads a schedule enqueues on `qSend`, in order: those of the `send`
events that happen while the channel is open. -/
def enqueued (closed : Bool) : List WriterEvent → List Bytes
  | [] => []
  | WriterEvent.send m :: rest => if closed then enqueued closed rest else m :: enqueued closed rest
  | WriterEvent.closeQueue :: rest => enqueued true rest
  | _ :: rest => enqueued closed rest

/-- The chunks of the text messages written to the peer, in order. -/
def dataChunks : List WireMessage → List Bytes
  | [] => []
  | WireMessage.text chunks :: rest => chunks ++ dataChunks rest
  | _ :: rest => dataChunks rest

/-- The bytes of the text messages written to the peer, in order. -/
def dataBytes (conn : List WireMessage) : Bytes := (dataChunks conn).flatten

/-- The payloads the writer holds but has not yet put in a finished message: the
chunks of the message being written or the item just dequeued, then the items
still in the channel. -/
def inFlight (s : Writer) : List Bytes :=
  match s.pc with
  | WriterPc.received message => message :: s.qSend
  | WriterPc.draining _ _ => s.w ++ s.qSend
  | _ => s.qSend

/-- In the `for` loop, the items still to drain are in the channel: the writer
is the only consumer of `qSend`. A writer that has returned without any failure
has seen the channel closed and empty. -/
def Writer.wellFormed (s : Writer) : Prop :=
  match s.pc with
  | WriterPc.draining i n => n - i ≤ s.qSend.length
  | WriterPc.returned => s.qSend = [] ∧ s.closed = true
  | _ => True

/-- A bound on the number of actions the writer still needs to write every
payload it holds: three per queued item (receive, open, close), less what the
current message has already gone through. -/
def workLeft (s : Writer) : Nat :=
  match s.pc with
  | WriterPc.select => 3 * s.qSend.length
  | WriterPc.received _ => 3 * s.qSend.length + 2
  | WriterPc.draining _ _ => 3 * s.qSend.length + 1
  | WriterPc.returned => 0

/-! ## Inbound Reader -/

/-- What `p.conn.ReadMessage()` returns: a frame, or an error; the flag of an
error is the result of `websocket.IsUnexpectedCloseError`, which only selects
the line that is logged. -/
inductive ReadResult where
  | message (m : Bytes)
  | failure (unexpectedClose : Bool)
deriving DecidableEq, Repr

/-- What the reader has produced: the frames pushed on `qRecv` and the players
sent on `gmUnregister`, oldest first. -/
structure Reader where
  qRecv : List Bytes := []
  gmUnregister : List Player := []
deriving DecidableEq, Repr

/-- Embedding of the loop of `readSocket` over the results of the successive
`ReadMessage` calls, each paired with the value of `*p` when the call returned
(the Command Parser changes the player concurrently). On an error the player is
sent on `gmUnregister` and the loop is left; a frame is pushed on `qRecv`. -/
def readSocket (r : Reader) : List (Player × ReadResult) → Reader
  | [] => r
  | (p, ReadResult.failure _) :: _ => { r with gmUnregister := r.gmUnregister ++ [p] }
  | (_, ReadResult.message m) :: rest => readSocket { r with qRecv := r.qRecv ++ [m] } rest

/-- The read returned a frame. -/
def isMessage : Player × ReadResult → Bool
  | (_, ReadResult.message _) => true
  | _ => false

/-- The frame of a successful read. -/
def frameOf : Player × ReadResult → Option Bytes
  | (_, ReadResult.message m) => some m
  | _ => none

/-! ## Sample data: what `encoding/json` does on the frames of the examples -/

/-- Frame `{"type":"username","value":"Ada"}`. -/
def frameAda : Bytes := utf8 "\x7b\"type\":\"username\",\"value\":\"Ada\"\x7d"

/-- Frame `{"type":"username","value":"Bob"}`. -/
def frameBob : Bytes := utf8 "\x7b\"type\":\"username\",\"value\":\"Bob\"\x7d"

/-- Frame `{"type":"username","value":"abcdefghijklmn"}`, a 14-character name. -/
def frame14 : Bytes := utf8 "\x7b\"type\":\"username\",\"value\":\"abcdefghijklmn\"\x7d"

/-- Frame `{"type":"username","value":"abcdefghijklmno"}`, a 15-character name. -/
def frame15 : Bytes := utf8 "\x7b\"type\":\"username\",\"value\":\"abcdefghijklmno\"\x7d"

/-- Frame `{"type":"username"}`, with no `value` field. -/
def frameNoValue : Bytes := utf8 "\x7b\"type\":\"username\"\x7d"

/-- Frame `{"type":"wizard"}`. -/
def frameWizard : Bytes := utf8 "\x7b\"type\":\"wizard\"\x7d"

/-- Frame `{"type":"move","value":"up"}`. -/
def frameMove : Bytes := utf8 "\x7b\"type\":\"move\",\"value\":\"up\"\x7d"

/-- Frame `{"type":"username","value":5}`: valid JSON whose `value` is a number. -/
def frameBadValue : Bytes := utf8 "\x7b\"type\":\"username\",\"value\":5\x7d"

/-- A finite table of `json.Unmarshal` on the sample frames. A syntax error
leaves the command untouched; a field of the wrong JSON type is skipped, the
other fields are stored and an error is returned. Frames outside the table are
reported as errors with the command untouched. -/
def sampleUnmarshal (incoming : Bytes) (c : Command) : Command × Bool :=
  if incoming = frameAda then ({ type := "username", Value := "Ada" }, false)
  else if incoming = frameBob then ({ type := "username", Value := "Bob" }, false)
  else if incoming = frame14 then ({ type := "username", Value := "abcdefghijklmn" }, false)
  else if incoming = frame15 then ({ type := "username", Value := "abcdefghijklmno" }, false)
  else if incoming = frameNoValue then ({ c with type := "username" }, false)
  else if incoming = frameWizard then ({ c with type := "wizard" }, false)
  else if incoming = frameMove then ({ type := "move", Value := "up" }, false)
  else if incoming = frameBadValue then ({ c with type := "username" }, true)
  else (c, true)

/-- The text `json.Marshal` returns for an envelope whose two strings need no
escaping, as is the case of the three messages of the handler. -/
def sampleMarshal (v : ClientInfo) : Bytes × Bool :=
  (utf8 ("\x7b\"type\":\"" ++ v.type ++ "\",\"message\":\"" ++ v.Message ++ "\"\x7d"), false)

/-- The sample codec. -/
def sampleJson : Json := { Unmarshal := sampleUnmarshal, Marshal := sampleMarshal }

/-- A schedule: two payloads are sent, the writer dequeues the first, a third
payload is sent, then the writer opens the message, drains one item, closes the
message, pings, and handles the third payload in a message of its own. -/
def sampleSchedule : List WriterEvent :=
  [WriterEvent.send [1], WriterEvent.send [2], WriterEvent.run {},
   WriterEvent.run {}, WriterEvent.send [3], WriterEvent.run {}, WriterEvent.run {},
   WriterEvent.tick {},
   WriterEvent.run {}, WriterEvent.run {}, WriterEvent.run {}]

/-- A schedule that closes the channel while two payloads are still buffered and
one is dequeued. -/
def sampleClosing : List WriterEvent :=
  [WriterEvent.send [1], WriterEvent.send [2], WriterEvent.run {}, WriterEvent.send [3],
   WriterEvent.closeQueue]

/-- Ten actions of the writer, none failing. -/
def sampleRuns : List WriterEvent := List.replicate 10 (WriterEvent.run {})

/-- The start of a schedule, up to the receive of the first payload. -/
def sampleStart : List WriterEvent :=
  [WriterEvent.send [1], WriterEvent.send [2], WriterEvent.run {}]

/-- What follows the opening of the message: a send, and two actions of the
writer. -/
def sampleRest : List WriterEvent :=
  [WriterEvent.send [3], WriterEvent.run {}, WriterEvent.run {}]

/-- Reads of a connection: two frames, an error, and a frame that is never
read; the player gets its name between the first and the second read. -/
def sampleReads : List (Player × ReadResult) :=
  [({}, ReadResult.message frameAda),
   (Player.mk "Ada" Status.ReadyToPlay [], ReadResult.message frameWizard),
   (Player.mk "Ada" Status.ReadyToPlay [invalidCommandError sampleJson], ReadResult.failure false),
   (Player.mk "Ada" Status.ReadyToPlay [invalidCommandError sampleJson], ReadResult.message frameBob)]

/-! ## Basic facts -/

/-- A string has at least as many bytes as characters. -/
theorem length_le_len (s : String) : s.length ≤ len s := by
  cases s with
  | mk l =>
    induction l with
    | nil => simp [len, String.utf8ByteSize, String.utf8ByteSize.go]
    | cons c cs ih =>
      have hc := Char.utf8Size_pos c
      simp only [len, String.utf8ByteSize, String.utf8ByteSize.go, String.length,
        List.length_cons] at *
      omega

@[simp]
theorem sendError_Username (j : Json) (p : Player) (m : String) :
    (sendError j p m).Username = p.Username := rfl

@[simp]
theorem sendError_status (j : Json) (p : Player) (m : String) :
    (sendError j p m).status = p.status := rfl

@[simp]
theorem sendError_qSend (j : Json) (p : Player) (m : String) :
    (sendError j p m).qSend = p.qSend ++ [(j.Marshal { type := "error", Message := m }).1] := rfl

/-- The length guard fires: the length error is sent and the player is otherwise
untouched. -/
theorem setUsername_of_long (j : Json) (p : Player) (cmd : Command) (h : 14 < len cmd.Value) :
    setUsername j p cmd = { p with qSend := p.qSend ++ [tooLongError j] } := by
  simp [setUsername, h, sendError, tooLongError]

/-- The status guard fires: the "already set" error is sent and the player is
otherwise untouched. -/
theorem setUsername_of_set (j : Json) (p : Player) (cmd : Command) (h : len cmd.Value ≤ 14)
    (hs : p.status ≠ Status.NoUsername) :
    setUsername j p cmd = { p with qSend := p.qSend ++ [alreadySetError j] } := by
  have h' : ¬ 14 < len cmd.Value := by omega
  simp [setUsername, h', hs, sendError, alreadySetError]

/-- No guard fires: the name is stored. -/
theorem setUsername_of_fresh (j : Json) (p : Player) (cmd : Command) (h : len cmd.Value ≤ 14)
    (hs : p.status = Status.NoUsername) :
    setUsername j p cmd = { p with Username := cmd.Value, status := Status.ReadyToPlay } := by
  have h' : ¬ 14 < len cmd.Value := by omega
  simp [setUsername, h', hs]

/-- A step on a frame decoded as a "username" command is `setUsername`. -/
theorem parseCommandStep_username (j : Json) (p : Player) (f : Bytes)
    (h : (decode j f).type = "username") :
    parseCommandStep j p f = setUsername j p (decode j f) := by
  simp [parseCommandStep, h]

/-- Once the status is not `NoUsername`, a "username" frame only sends one
error. -/
theorem parseCommandStep_username_set (j : Json) (p : Player) (f : Bytes)
    (h : (decode j f).type = "username") (hs : p.status ≠ Status.NoUsername) :
    parseCommandStep j p f = { p with qSend := p.qSend ++ [rejection j f] } := by
  rw [parseCommandStep_username j p f h]
  by_cases hl : 14 < len (decode j f).Value
  · rw [setUsername_of_long j p _ hl]; simp [rejection, hl]
  · rw [setUsername_of_set j p _ (by omega) hs]; simp [rejection, hl]

/-- A step never touches a player whose status is `ReadyToPlay`, apart from the
outbound queue. -/
theorem parseCommandStep_ready (j : Json) (p : Player) (f : Bytes)
    (hs : p.status = Status.ReadyToPlay) :
    (parseCommandStep j p f).Username = p.Username ∧
      (parseCommandStep j p f).status = Status.ReadyToPlay := by
  unfold parseCommandStep setUsername
  simp only [hs]
  split_ifs <;> simp_all

/-- A step on a player without a username either leaves username and status
alone, or stores the decoded value and moves to `ReadyToPlay`. -/
theorem parseCommandStep_fresh (j : Json) (p : Player) (f : Bytes)
    (hs : p.status = Status.NoUsername) :
    ((parseCommandStep j p f).Username = p.Username ∧
        (parseCommandStep j p f).status = Status.NoUsername) ∨
      ((parseCommandStep j p f).Username = (decode j f).Value ∧
        (parseCommandStep j p f).status = Status.ReadyToPlay) := by
  unfold parseCommandStep setUsername
  simp only [hs]
  split_ifs <;> simp_all

theorem parseCommand_append (j : Json) (a b : List Bytes) (p : Player) :
    parseCommand j p (a ++ b) = parseCommand j (parseCommand j p a) b := by
  induction a generalizing p with
  | nil => rfl
  | cons f fs ih => simp [parseCommand, ih]

/-- Once `ReadyToPlay`, username and status are fixed for the rest of the run. -/
theorem parseCommand_ready (j : Json) (frames : List Bytes) (p : Player)
    (hs : p.status = Status.ReadyToPlay) :
    (parseCommand j p frames).Username = p.Username ∧
      (parseCommand j p frames).status = Status.ReadyToPlay := by
  induction frames generalizing p with
  | nil => exact ⟨rfl, hs⟩
  | cons f fs ih =>
    obtain ⟨hu, hr⟩ := parseCommandStep_ready j p f hs
    obtain ⟨hu', hr'⟩ := ih (parseCommandStep j p f) hr
    exact ⟨by simp only [parseCommand]; rw [hu', hu], by simp only [parseCommand]; exact hr'⟩

/-! ## Username assignment -/

/-- C3. Length rejection: for every username value longer than 14 characters and
every player state, `setUsername` sends exactly one payload on the outbound
queue, the length error, and leaves username and status unchanged. -/
theorem setUsername_too_long (j : Json) (p : Player) (cmd : Command)
    (h : 14 < cmd.Value.length) :
    (setUsername j p cmd).qSend = p.qSend ++ [tooLongError j] ∧
      (setUsername j p cmd).Username = p.Username ∧
      (setUsername j p cmd).status = p.status := by
  have hl : 14 < len cmd.Value := lt_of_lt_of_le h (length_le_len _)
  rw [setUsername_of_long j p cmd hl]
  exact ⟨rfl, rfl, rfl⟩

/-- C3, at a 15-character name on a fresh player: the length error is the only
payload sent and the status stays `NoUsername`. -/
theorem setUsername_too_long_witness :
    14 < (Command.mk "username" "abcdefghijklmno").Value.length ∧
      ((setUsername sampleJson {} (Command.mk "username" "abcdefghijklmno")).qSend =
          ({} : Player).qSend ++ [tooLongError sampleJson] ∧
        (setUsername sampleJson {} (Command.mk "username" "abcdefghijklmno")).Username =
          ({} : Player).Username ∧
        (setUsername sampleJson {} (Command.mk "username" "abcdefghijklmno")).status =
          ({} : Player).status) :=
  ⟨by decide, setUsername_too_long sampleJson {} (Command.mk "username" "abcdefghijklmno")
    (by decide)⟩

/-- C4 as stated fails: a name of 14 two-byte characters, given to a player in
`NoUsername`, is rejected with the length error; nothing is stored and the
status stays `NoUsername`. -/
theorem setUsername_14_chars_rejected :
    accented14.length = 14 ∧ len accented14 = 28 ∧
      (setUsername sampleJson {} (Command.mk "username" accented14)).Username = "" ∧
      (setUsername sampleJson {} (Command.mk "username" accented14)).status =
        Status.NoUsername ∧
      (setUsername sampleJson {} (Command.mk "username" accented14)).qSend =
        [tooLongError sampleJson] := by
  decide

/-- C4, amended. For every username value of at most 14 bytes (so every value of
at most 14 one-byte characters, whatever they are), `setUsername` on a player
with status `NoUsername` stores the value, moves the status to `ReadyToPlay` and
sends nothing on the outbound queue. -/
theorem setUsername_accepts (j : Json) (p : Player) (cmd : Command)
    (h : len cmd.Value ≤ 14) (hs : p.status = Status.NoUsername) :
    (setUsername j p cmd).Username = cmd.Value ∧
      (setUsername j p cmd).status = Status.ReadyToPlay ∧
      (setUsername j p cmd).qSend = p.qSend := by
  rw [setUsername_of_fresh j p cmd h hs]
  exact ⟨rfl, rfl, rfl⟩

/-- C4 amended, at a name of exactly 14 one-byte characters. -/
theorem setUsername_accepts_witness :
    len (Command.mk "username" "abcdefghijklmn").Value ≤ 14 ∧
      ({} : Player).status = Status.NoUsername ∧
      ((setUsername sampleJson {} (Command.mk "username" "abcdefghijklmn")).Username =
          (Command.mk "username" "abcdefghijklmn").Value ∧
        (setUsername sampleJson {} (Command.mk "username" "abcdefghijklmn")).status =
          Status.ReadyToPlay ∧
        (setUsername sampleJson {} (Command.mk "username" "abcdefghijklmn")).qSend =
          ({} : Player).qSend) :=
  ⟨by decide, rfl, setUsername_accepts sampleJson {} (Command.mk "username" "abcdefghijklmn")
    (by decide) rfl⟩

/-! ## Dispatch -/

/-- C5. Unknown command: for every frame whose decoded command has a type that is
neither "username" nor "move", and every player state, one iteration of the
Command Parser sends exactly one payload, the envelope of type "error" with
message "Invalid command type!", and changes neither username nor status. -/
theorem parseCommandStep_unknown (j : Json) (p : Player) (incoming : Bytes)
    (hu : (decode j incoming).type ≠ "username") (hm : (decode j incoming).type ≠ "move") :
    (parseCommandStep j p incoming).qSend =
        p.qSend ++ [(j.Marshal { type := "error", Message := "Invalid command type!" }).1] ∧
      (parseCommandStep j p incoming).Username = p.Username ∧
      (parseCommandStep j p incoming).status = p.status := by
  simp [parseCommandStep, hu, hm]

/-- C5, at the frame `{"type":"wizard"}` on a player named Ada. -/
theorem parseCommandStep_unknown_witness :
    (decode sampleJson frameWizard).type ≠ "username" ∧
      (decode sampleJson frameWizard).type ≠ "move" ∧
      ((parseCommandStep sampleJson (Player.mk "Ada" Status.ReadyToPlay []) frameWizard).qSend =
          (Player.mk "Ada" Status.ReadyToPlay []).qSend ++
            [(sampleJson.Marshal { type := "error", Message := "Invalid command type!" }).1] ∧
        (parseCommandStep sampleJson (Player.mk "Ada" Status.ReadyToPlay []) frameWizard).Username =
          (Player.mk "Ada" Status.ReadyToPlay []).Username ∧
        (parseCommandStep sampleJson (Player.mk "Ada" Status.ReadyToPlay []) frameWizard).status =
          (Player.mk "Ada" Status.ReadyToPlay []).status) :=
  ⟨by decide, by decide,
    parseCommandStep_unknown sampleJson (Player.mk "Ada" Status.ReadyToPlay []) frameWizard
      (by decide) (by decide)⟩

/-- A run over "username" frames that are all too long only sends length
errors. -/
theorem parseCommand_all_long (j : Json) (pre : List Bytes) (p : Player)
    (ht : ∀ x ∈ pre, (decode j x).type = "username")
    (hl : ∀ x ∈ pre, 14 < len (decode j x).Value) :
    parseCommand j p pre = { p with qSend := p.qSend ++ pre.map (fun _ => tooLongError j) } := by
  induction pre generalizing p with
  | nil => simp [parseCommand]
  | cons f fs ih =>
    have h1 : parseCommandStep j p f = { p with qSend := p.qSend ++ [tooLongError j] } := by
      rw [parseCommandStep_username j p f (ht f (List.mem_cons_self _ _))]
      exact setUsername_of_long j p _ (hl f (List.mem_cons_self _ _))
    simp only [parseCommand, h1]
    rw [ih _ (fun x hx => ht x (List.mem_cons_of_mem _ hx))
      (fun x hx => hl x (List.mem_cons_of_mem _ hx))]
    simp

/-- A run over "username" frames once the name is set only sends rejections. -/
theorem parseCommand_all_rejected (j : Json) (post : List Bytes) (p : Player)
    (hs : p.status ≠ Status.NoUsername)
    (ht : ∀ x ∈ post, (decode j x).type = "username") :
    parseCommand j p post = { p with qSend := p.qSend ++ post.map (rejection j) } := by
  induction post generalizing p with
  | nil => simp [parseCommand]
  | cons f fs ih =>
    have h1 := parseCommandStep_username_set j p f (ht f (List.mem_cons_self _ _)) hs
    simp only [parseCommand, h1]
    rw [ih { p with qSend := p.qSend ++ [rejection j f] } hs
      (fun x hx => ht x (List.mem_cons_of_mem _ hx))]
    simp

/-- C1 as stated fails: after `{"type":"username","value":"Ada"}` has set the name,
a "username" command with a 15-character value gets the length error, not the
"Username already set!" error. -/
theorem second_username_gets_length_error :
    (parseCommand sampleJson {} [frameAda]).Username = "Ada" ∧
      (parseCommand sampleJson {} [frameAda]).qSend = [] ∧
      (parseCommand sampleJson {} [frameAda, frame15]).qSend = [tooLongError sampleJson] ∧
      (parseCommand sampleJson {} [frameAda, frame15]).qSend ≠ [alreadySetError sampleJson] := by
  decide

/-- C1, amended. For every sequence of "username" commands processed from the
initial state, the first one whose value has at most 14 bytes succeeds: it
stores its value and moves the status to `ReadyToPlay`. The commands before it
each get the length error. Every command after it leaves username and status
unchanged and gets exactly one error: "Username already set!" when its value has
at most 14 bytes, the length error when it has more. -/
theorem username_set_once (j : Json) (pre : List Bytes) (f : Bytes) (post : List Bytes)
    (ht : ∀ x ∈ pre ++ f :: post, (decode j x).type = "username")
    (hpre : ∀ x ∈ pre, 14 < len (decode j x).Value)
    (hf : len (decode j f).Value ≤ 14) :
    parseCommand j {} pre =
        { Username := "", status := Status.NoUsername,
          qSend := pre.map (fun _ => tooLongError j) } ∧
      parseCommand j {} (pre ++ f :: post) =
        { Username := (decode j f).Value,
          status := Status.ReadyToPlay,
          qSend := pre.map (fun _ => tooLongError j) ++
            post.map (fun x =>
              if 14 < len (decode j x).Value then tooLongError j else alreadySetError j) } := by
  have ht1 : ∀ x ∈ pre, (decode j x).type = "username" :=
    fun x hx => ht x (List.mem_append_left _ hx)
  have ht2 : (decode j f).type = "username" :=
    ht f (List.mem_append_right _ (List.mem_cons_self _ _))
  have ht3 : ∀ x ∈ post, (decode j x).type = "username" :=
    fun x hx => ht x (List.mem_append_right _ (List.mem_cons_of_mem _ hx))
  refine ⟨by rw [parseCommand_all_long j pre {} ht1 hpre]; simp, ?_⟩
  rw [parseCommand_append, parseCommand_all_long j pre {} ht1 hpre]
  simp only [parseCommand]
  rw [parseCommandStep_username j _ f ht2, setUsername_of_fresh j _ _ hf rfl,
    parseCommand_all_rejected j post _ (by simp) ht3]
  simp [rejection]

/-- C1 amended, at the run: a 15-character name, then Ada, then Bob, then a
15-character name again. -/
theorem username_set_once_witness :
    (∀ x ∈ [frame15] ++ frameAda :: [frameBob, frame15],
        (decode sampleJson x).type = "username") ∧
      (∀ x ∈ [frame15], 14 < len (decode sampleJson x).Value) ∧
      len (decode sampleJson frameAda).Value ≤ 14 ∧
      parseCommand sampleJson {} [frame15] =
        { Username := "", status := Status.NoUsername,
          qSend := [frame15].map (fun _ => tooLongError sampleJson) } ∧
      parseCommand sampleJson {} ([frame15] ++ frameAda :: [frameBob, frame15]) =
        { Username := (decode sampleJson frameAda).Value,
          status := Status.ReadyToPlay,
          qSend := [frame15].map (fun _ => tooLongError sampleJson) ++
            [frameBob, frame15].map (fun x =>
              if 14 < len (decode sampleJson x).Value then tooLongError sampleJson
              else alreadySetError sampleJson) } :=
  ⟨by decide, by decide, by decide,
    username_set_once sampleJson [frame15] frameAda [frameBob, frame15]
      (by decide) (by decide) (by decide)⟩

/-- Shape of a run from a player without a username: username and status keep
their initial value up to some step, and from that step on the status is
`ReadyToPlay` and the username is the value decoded from the frame of that
step. -/
theorem parseCommand_trace (j : Json) (frames : List Bytes) (p : Player)
    (hs : p.status = Status.NoUsername) :
    ∃ k u, 1 ≤ k ∧
      (∀ i, i < k →
        (parseCommand j p (frames.take i)).Username = p.Username ∧
        (parseCommand j p (frames.take i)).status = Status.NoUsername) ∧
      (∀ i, k ≤ i → i ≤ frames.length →
        (parseCommand j p (frames.take i)).Username = u ∧
        (parseCommand j p (frames.take i)).status = Status.ReadyToPlay) ∧
      (k ≤ frames.length →
        (frames.get? (k - 1)).map (fun f => (decode j f).Value) = some u) := by
  induction frames generalizing p with
  | nil =>
    refine ⟨1, "", le_refl _, ?_, ?_, ?_⟩
    · intro i _; simp [parseCommand, hs]
    · intro i h1 h2; simp at h2; omega
    · intro h; simp at h
  | cons f fs ih =>
    rcases parseCommandStep_fresh j p f hs with ⟨hu, hn⟩ | ⟨hu, hr⟩
    · obtain ⟨k, u, hk, hlt, hge, hval⟩ := ih (parseCommandStep j p f) hn
      refine ⟨k + 1, u, by omega, ?_, ?_, ?_⟩
      · intro i hi
        cases i with
        | zero => simp [parseCommand, hs]
        | succ i =>
          simp only [List.take_succ_cons, parseCommand]
          rw [← hu]
          exact hlt i (by omega)
      · intro i h1 h2
        cases i with
        | zero => omega
        | succ i =>
          simp only [List.take_succ_cons, parseCommand]
          exact hge i (by omega) (by simpa using h2)
      · intro h
        have hk' : k ≤ fs.length := by simpa using h
        have := hval hk'
        obtain ⟨k', rfl⟩ : ∃ k', k = k' + 1 := ⟨k - 1, by omega⟩
        simpa using this
    · refine ⟨1, (decode j f).Value, le_refl _, ?_, ?_, ?_⟩
      · intro i hi
        have : i = 0 := by omega
        subst this
        simp [parseCommand, hs]
      · intro i h1 h2
        cases i with
        | zero => omega
        | succ i =>
          simp only [List.take_succ_cons, parseCommand]
          obtain ⟨h3, h4⟩ := parseCommand_ready j (fs.take i) _ hr
          exact ⟨by rw [h3, hu], h4⟩
      · intro _; simp

/-- C2. State monotonicity: for every sequence of inbound frames handled by the
Command Parser from the initial state, there is a step `k` such that before it
username and status are the initial ones (empty, `NoUsername`) and from it on
they are fixed: the status is `ReadyToPlay` and the username is the value
decoded from the frame of step `k`. So the pair changes at most once, the only
change is `NoUsername -> ReadyToPlay`, and `Waiting` is never reached. -/
theorem status_monotone (j : Json) (frames : List Bytes) :
    (∃ k u, 1 ≤ k ∧
      (∀ i, i < k →
        (parseCommand j {} (frames.take i)).Username = "" ∧
        (parseCommand j {} (frames.take i)).status = Status.NoUsername) ∧
      (∀ i, k ≤ i → i ≤ frames.length →
        (parseCommand j {} (frames.take i)).Username = u ∧
        (parseCommand j {} (frames.take i)).status = Status.ReadyToPlay) ∧
      (k ≤ frames.length →
        (frames.get? (k - 1)).map (fun f => (decode j f).Value) = some u)) ∧
    (∀ i, (parseCommand j {} (frames.take i)).status ≠ Status.Waiting) ∧
    (∀ i l, i ≤ l →
      (parseCommand j {} (frames.take i)).status = Status.ReadyToPlay →
      (parseCommand j {} (frames.take l)).status = Status.ReadyToPlay ∧
      (parseCommand j {} (frames.take l)).Username =
        (parseCommand j {} (frames.take i)).Username) := by
  obtain ⟨k, u, hk, hlt, hge, hval⟩ := parseCommand_trace j frames {} rfl
  refine ⟨⟨k, u, hk, hlt, hge, hval⟩, ?_, ?_⟩
  · have key : ∀ i, i ≤ frames.length →
        (parseCommand j {} (frames.take i)).status ≠ Status.Waiting := by
      intro i hi2
      by_cases hi : i < k
      · rw [(hlt i hi).2]; decide
      · rw [(hge i (by omega) hi2).2]; decide
    intro i
    by_cases hi2 : i ≤ frames.length
    · exact key i hi2
    · have h := key frames.length (le_refl _)
      rw [List.take_length] at h
      rw [List.take_of_length_le (by omega)]
      exact h
  · intro i l hil hr
    have hsplit : frames.take l = frames.take i ++ (frames.take l).drop i := by
      have h1 : (frames.take l).take i = frames.take i := by
        rw [List.take_take, min_eq_left hil]
      rw [← h1, List.take_append_drop]
    rw [hsplit, parseCommand_append]
    obtain ⟨h3, h4⟩ := parseCommand_ready j ((frames.take l).drop i) _ hr
    exact ⟨h4, h3⟩

/-- C10. Empty username is accepted and locks the name: for every player with
status `NoUsername`, a frame decoded as a "username" command with an empty value
sends no error and moves the status to `ReadyToPlay` with an empty username.
After any later frames the username is still empty and the status still
`ReadyToPlay`, and every later "username" command is rejected: it sends exactly
one error and changes neither username nor status. -/
theorem empty_username_locks (j : Json) (p : Player) (incoming : Bytes)
    (hs : p.status = Status.NoUsername)
    (hc : decode j incoming = { type := "username", Value := "" }) :
    (parseCommandStep j p incoming).qSend = p.qSend ∧
      (parseCommandStep j p incoming).status = Status.ReadyToPlay ∧
      (parseCommandStep j p incoming).Username = "" ∧
      ∀ later : List Bytes,
        (parseCommand j (parseCommandStep j p incoming) later).Username = "" ∧
        (parseCommand j (parseCommandStep j p incoming) later).status = Status.ReadyToPlay ∧
        ∀ f : Bytes, (decode j f).type = "username" →
          parseCommandStep j (parseCommand j (parseCommandStep j p incoming) later) f =
            { parseCommand j (parseCommandStep j p incoming) later with
              qSend := (parseCommand j (parseCommandStep j p incoming) later).qSend ++
                [rejection j f] } := by
  have ht : (decode j incoming).type = "username" := by rw [hc]
  have hl : len (decode j incoming).Value ≤ 14 := by rw [hc]; decide
  have hstep : parseCommandStep j p incoming =
      { p with Username := "", status := Status.ReadyToPlay } := by
    rw [parseCommandStep_username j p incoming ht, setUsername_of_fresh j p _ hl hs, hc]
  have hr : (parseCommandStep j p incoming).status = Status.ReadyToPlay := by rw [hstep]
  have hu : (parseCommandStep j p incoming).Username = "" := by rw [hstep]
  refine ⟨by rw [hstep], hr, hu, fun later => ?_⟩
  obtain ⟨h1, h2⟩ := parseCommand_ready j later _ hr
  refine ⟨by rw [h1, hu], h2, fun f hf => ?_⟩
  exact parseCommandStep_username_set j _ f hf (by rw [h2]; decide)

/-- C10, at the frame `{"type":"username"}` on a fresh player. -/
theorem empty_username_locks_witness :
    ({} : Player).status = Status.NoUsername ∧
      decode sampleJson frameNoValue = { type := "username", Value := "" } ∧
      (parseCommandStep sampleJson {} frameNoValue).qSend = ({} : Player).qSend ∧
      (parseCommandStep sampleJson {} frameNoValue).status = Status.ReadyToPlay ∧
      (parseCommandStep sampleJson {} frameNoValue).Username = "" ∧
      (parseCommand sampleJson (parseCommandStep sampleJson {} frameNoValue)
        [frameAda]).Username = "" :=
  ⟨rfl, by decide,
    (empty_username_locks sampleJson {} frameNoValue rfl (by decide)).1,
    (empty_username_locks sampleJson {} frameNoValue rfl (by decide)).2.1,
    (empty_username_locks sampleJson {} frameNoValue rfl (by decide)).2.2.1,
    ((empty_username_locks sampleJson {} frameNoValue rfl (by decide)).2.2.2 [frameAda]).1⟩

/-! ## Outbound Writer: order of the payloads -/

theorem dataChunks_append (a b : List WireMessage) :
    dataChunks (a ++ b) = dataChunks a ++ dataChunks b := by
  induction a with
  | nil => rfl
  | cons x xs ih => cases x <;> simp [dataChunks, ih]

/-- The channel is closed after an event iff it was closed before or the event
closes it. -/
theorem writeSocketStep_closed (s : Writer) (ev : WriterEvent) :
    (writeSocketStep s ev).closed = (s.closed || decide (ev = WriterEvent.closeQueue)) := by
  rcases s with ⟨pc, q, closed, w, conn⟩
  cases ev with
  | send m => cases closed <;> simp [writeSocketStep]
  | closeQueue => simp [writeSocketStep]
  | tick e =>
    cases pc with
    | select => simp only [writeSocketStep]; split_ifs <;> simp
    | _ => simp [writeSocketStep]
  | run e =>
    cases pc with
    | select =>
      cases q with
      | nil => simp only [writeSocketStep]; split_ifs <;> simp
      | cons m rest => simp [writeSocketStep]
    | received m => simp [writeSocketStep]; split_ifs <;> simp
    | draining i n =>
      cases q <;> simp only [writeSocketStep] <;> split_ifs <;> simp
    | returned => simp [writeSocketStep]

theorem enqueued_cons (closed : Bool) (ev : WriterEvent) (rest : List WriterEvent) :
    enqueued closed (ev :: rest) =
      enqueued closed [ev] ++ enqueued (closed || decide (ev = WriterEvent.closeQueue)) rest := by
  cases ev <;> cases closed <;> simp [enqueued]

/-- One event without failure keeps the writer well formed and keeps every
payload in place: the chunks already written followed by the payloads in
flight grow exactly by the payload the event enqueues. -/
theorem writeSocketStep_inv (s : Writer) (ev : WriterEvent) (hwf : s.wellFormed)
    (hno : noFailure ev = true) :
    (writeSocketStep s ev).wellFormed ∧
      dataChunks (writeSocketStep s ev).conn ++ inFlight (writeSocketStep s ev) =
        dataChunks s.conn ++ inFlight s ++ enqueued s.closed [ev] := by
  rcases s with ⟨pc, q, closed, w, conn⟩
  cases ev with
  | send m =>
    cases closed <;> cases pc <;>
      simp_all [writeSocketStep, Writer.wellFormed, inFlight, enqueued]
    omega
  | closeQueue =>
    cases pc <;> simp_all [writeSocketStep, Writer.wellFormed, inFlight, enqueued]
  | tick e =>
    simp only [noFailure, Bool.and_eq_true, Bool.not_eq_true'] at hno
    cases pc <;>
      simp_all [writeSocketStep, Writer.wellFormed, inFlight, enqueued, dataChunks_append,
        dataChunks]
  | run e =>
    simp only [noFailure, Bool.and_eq_true, Bool.not_eq_true'] at hno
    obtain ⟨⟨⟨h1, h2⟩, h3⟩, h4⟩ := hno
    cases pc with
    | select =>
      cases q with
      | nil =>
        cases closed <;>
          simp [writeSocketStep, Writer.wellFormed, inFlight, enqueued, dataChunks_append,
            dataChunks, h4]
      | cons m rest =>
        simp [writeSocketStep, Writer.wellFormed, inFlight, enqueued]
    | received m =>
      simp [writeSocketStep, Writer.wellFormed, inFlight, enqueued, h1, h2]
    | draining i n =>
      simp only [Writer.wellFormed] at hwf
      by_cases hin : i < n
      · cases q with
        | nil => simp at hwf; omega
        | cons m rest =>
          simp only [List.length_cons] at hwf
          simp [writeSocketStep, Writer.wellFormed, inFlight, enqueued, hin, h2]
          omega
      · simp [writeSocketStep, Writer.wellFormed, inFlight, enqueued, hin, h3,
          dataChunks_append, dataChunks]
    | returned =>
      simp only [Writer.wellFormed] at hwf
      simp [writeSocketStep, Writer.wellFormed, inFlight, enqueued, hwf]

/-- A schedule without failure keeps the writer well formed and keeps every
payload in place, in the order of the sends. -/
theorem writeSocket_inv (evs : List WriterEvent) (s : Writer) (hwf : s.wellFormed)
    (hno : ∀ e ∈ evs, noFailure e = true) :
    (writeSocket s evs).wellFormed ∧
      dataChunks (writeSocket s evs).conn ++ inFlight (writeSocket s evs) =
        dataChunks s.conn ++ inFlight s ++ enqueued s.closed evs := by
  induction evs generalizing s with
  | nil => simp [writeSocket, enqueued, hwf]
  | cons ev rest ih =>
    obtain ⟨hwf1, h1⟩ := writeSocketStep_inv s ev hwf (hno ev (List.mem_cons_self _ _))
    obtain ⟨hwf2, h2⟩ := ih (writeSocketStep s ev) hwf1
      (fun e he => hno e (List.mem_cons_of_mem _ he))
    refine ⟨hwf2, ?_⟩
    simp only [writeSocket]
    rw [h2, h1, writeSocketStep_closed, enqueued_cons s.closed ev rest]
    simp

/-- While the writer waits in `select` and only producers act, nothing is
written and the sends pile up in the channel. -/
theorem writeSocket_idle (rest : List WriterEvent) (s : Writer)
    (hpc : s.pc = WriterPc.select)
    (hr : ∀ e ∈ rest, isRun e = false ∧ isTick e = false) :
    (writeSocket s rest).pc = WriterPc.select ∧
      (writeSocket s rest).conn = s.conn ∧
      (writeSocket s rest).qSend = s.qSend ++ enqueued s.closed rest := by
  induction rest generalizing s with
  | nil => simp [writeSocket, enqueued, hpc]
  | cons ev rest ih =>
    have hev := hr ev (List.mem_cons_self _ _)
    have hrest : ∀ e ∈ rest, isRun e = false ∧ isTick e = false :=
      fun e he => hr e (List.mem_cons_of_mem _ he)
    rcases s with ⟨pc, q, closed, w, conn⟩
    simp only at hpc
    subst hpc
    cases ev with
    | send m =>
      cases closed
      · obtain ⟨h1, h2, h3⟩ := ih ⟨WriterPc.select, q ++ [m], false, w, conn⟩ rfl hrest
        simp only [writeSocket, writeSocketStep, enqueued, Bool.false_eq_true, if_false, if_true]
        exact ⟨h1, h2, by simpa using h3⟩
      · obtain ⟨h1, h2, h3⟩ := ih ⟨WriterPc.select, q, true, w, conn⟩ rfl hrest
        simp only [writeSocket, writeSocketStep, enqueued, Bool.false_eq_true, if_false, if_true]
        exact ⟨h1, h2, by simpa using h3⟩
    | closeQueue =>
      obtain ⟨h1, h2, h3⟩ := ih ⟨WriterPc.select, q, true, w, conn⟩ rfl hrest
      simp only [writeSocket, writeSocketStep, enqueued]
      exact ⟨h1, h2, by simpa using h3⟩
    | tick e => simp [isTick] at hev
    | run e => simp [isRun] at hev

/-- From inside the `for` loop, once the writer has executed as many actions as
there are items left to drain plus one, whatever the producers do meanwhile, the
message written is the chunks already written followed by the items that were
left to drain, and the writer is back in `select`. -/
theorem writeSocket_drain (rest : List WriterEvent) (s : Writer) (i n : Nat)
    (hpc : s.pc = WriterPc.draining i n) (hwf : n - i ≤ s.qSend.length)
    (hno : ∀ e ∈ rest, noFailure e = true ∧ isTick e = false)
    (hcount : (rest.filter isRun).length = n - i + 1) :
    (writeSocket s rest).pc = WriterPc.select ∧
      (writeSocket s rest).conn = s.conn ++ [WireMessage.text (s.w ++ s.qSend.take (n - i))] ∧
      (writeSocket s rest).qSend = s.qSend.drop (n - i) ++ enqueued s.closed rest := by
  induction rest generalizing s i with
  | nil => simp at hcount
  | cons ev rest ih =>
    have hev := hno ev (List.mem_cons_self _ _)
    have hrest : ∀ e ∈ rest, noFailure e = true ∧ isTick e = false :=
      fun e he => hno e (List.mem_cons_of_mem _ he)
    rcases s with ⟨pc, q, closed, w, conn⟩
    simp only at hpc hwf
    subst hpc
    cases ev with
    | send m =>
      have hc : (rest.filter isRun).length = n - i + 1 := by simpa [isRun] using hcount
      cases closed
      · obtain ⟨h1, h2, h3⟩ := ih ⟨WriterPc.draining i n, q ++ [m], false, w, conn⟩ i rfl
          (by simp; omega) hrest hc
        simp only [writeSocket, writeSocketStep, enqueued, Bool.false_eq_true, if_false]
        refine ⟨h1, ?_, ?_⟩
        · rw [h2]; simp [List.take_append_of_le_length hwf]
        · rw [h3]; simp [List.drop_append_of_le_length hwf]
      · obtain ⟨h1, h2, h3⟩ := ih ⟨WriterPc.draining i n, q, true, w, conn⟩ i rfl hwf hrest hc
        simp only [writeSocket, writeSocketStep, enqueued, if_true]
        exact ⟨h1, h2, by simpa using h3⟩
    | closeQueue =>
      have hc : (rest.filter isRun).length = n - i + 1 := by simpa [isRun] using hcount
      obtain ⟨h1, h2, h3⟩ := ih ⟨WriterPc.draining i n, q, true, w, conn⟩ i rfl hwf hrest hc
      simp only [writeSocket, writeSocketStep, enqueued]
      refine ⟨h1, h2, ?_⟩
      rw [h3]
    | tick e => simp [isTick] at hev
    | run e =>
      have hc : (rest.filter isRun).length = n - i := by simpa [isRun] using hcount
      have hnf := hev.1
      simp only [noFailure, Bool.and_eq_true, Bool.not_eq_true'] at hnf
      obtain ⟨⟨⟨_, h2⟩, h3⟩, _⟩ := hnf
      by_cases hin : i < n
      · cases q with
        | nil => simp at hwf; omega
        | cons m q' =>
          simp only [List.length_cons] at hwf
          obtain ⟨h1, h4, h5⟩ := ih ⟨WriterPc.draining (i + 1) n, q', closed, w ++ [m], conn⟩
            (i + 1) rfl (by simp; omega) hrest (by omega)
          have hsub : n - i = (n - (i + 1)) + 1 := by omega
          simp only [writeSocket, writeSocketStep, if_pos hin, h2, enqueued, Bool.false_eq_true,
            if_false]
          refine ⟨h1, ?_, ?_⟩
          · rw [h4, hsub]; simp
          · rw [h5, hsub]; simp
      · have hz : n - i = 0 := by omega
        have hnorun : ∀ e ∈ rest, isRun e = false ∧ isTick e = false := by
          intro e he
          refine ⟨?_, (hrest e he).2⟩
          have hnil : rest.filter isRun = [] := List.length_eq_zero.mp (by omega)
          have := List.filter_eq_nil_iff.mp hnil e he
          simpa using this
        obtain ⟨h1, h4, h5⟩ := writeSocket_idle rest
          ⟨WriterPc.select, q, closed, [], conn ++ [WireMessage.text w]⟩ rfl hnorun
        simp only [writeSocket, writeSocketStep, if_neg hin, h3, enqueued, Bool.false_eq_true,
          if_false]
        refine ⟨h1, ?_, ?_⟩
        · rw [h4, hz]; simp
        · rw [h5, hz]; simp

theorem writeSocket_append (a b : List WriterEvent) (s : Writer) :
    writeSocket s (a ++ b) = writeSocket (writeSocket s a) b := by
  induction a generalizing s with
  | nil => rfl
  | cons ev rest ih => simp [writeSocket, ih]

/-- Actions of the writer enqueue nothing. -/
theorem enqueued_of_runs (acts : List WriterEvent) (closed : Bool)
    (h : ∀ ev ∈ acts, isRun ev = true ∧ noFailure ev = true) : enqueued closed acts = [] := by
  induction acts with
  | nil => rfl
  | cons ev rest ih =>
    have hev := (h ev (List.mem_cons_self _ _)).1
    have hrest := ih (fun x hx => h x (List.mem_cons_of_mem _ hx))
    cases ev <;> simp_all [enqueued, isRun]

/-- Sending payloads on an open channel enqueues them all, in order. -/
theorem enqueued_sends (l : List Bytes) :
    enqueued false (l.map WriterEvent.send) = l := by
  induction l with
  | nil => rfl
  | cons m rest ih => simp [enqueued, ih]

/-- A schedule that never closes the channel leaves it as it was. -/
theorem writeSocket_closed (evs : List WriterEvent) (s : Writer)
    (h : ∀ ev ∈ evs, ev ≠ WriterEvent.closeQueue) :
    (writeSocket s evs).closed = s.closed := by
  induction evs generalizing s with
  | nil => rfl
  | cons ev rest ih =>
    simp only [writeSocket]
    rw [ih _ (fun x hx => h x (List.mem_cons_of_mem _ hx)), writeSocketStep_closed]
    simp [h ev (List.mem_cons_self _ _)]

/-- Each action of the writer that does not fail uses up one unit of the work
left, until none is left. -/
theorem writeSocketStep_work (s : Writer) (ev : WriterEvent) (hwf : s.wellFormed)
    (hrun : isRun ev = true) (hno : noFailure ev = true) :
    workLeft (writeSocketStep s ev) ≤ workLeft s - 1 := by
  rcases s with ⟨pc, q, closed, w, conn⟩
  cases ev with
  | send m => simp [isRun] at hrun
  | closeQueue => simp [isRun] at hrun
  | tick e => simp [isRun] at hrun
  | run e =>
    simp only [noFailure, Bool.and_eq_true, Bool.not_eq_true'] at hno
    obtain ⟨⟨⟨h1, h2⟩, h3⟩, h4⟩ := hno
    cases pc with
    | select =>
      cases q with
      | nil => cases closed <;> simp [writeSocketStep, workLeft]
      | cons m rest => simp [writeSocketStep, workLeft]; omega
    | received m => simp [writeSocketStep, workLeft, h1]
    | draining i n =>
      simp only [Writer.wellFormed] at hwf
      by_cases hin : i < n
      · cases q with
        | nil => simp at hwf; omega
        | cons m rest => simp [writeSocketStep, workLeft, hin]; omega
      · simp [writeSocketStep, workLeft, hin, h3]
    | returned => simp [writeSocketStep, workLeft]

/-- After as many actions of the writer as there is work left, none failing, no
work is left. -/
theorem writeSocket_work (acts : List WriterEvent) (s : Writer) (hwf : s.wellFormed)
    (h : ∀ ev ∈ acts, isRun ev = true ∧ noFailure ev = true) :
    workLeft (writeSocket s acts) ≤ workLeft s - acts.length := by
  induction acts generalizing s with
  | nil => simp [writeSocket]
  | cons ev rest ih =>
    obtain ⟨hrun, hno⟩ := h ev (List.mem_cons_self _ _)
    have h1 := writeSocketStep_work s ev hwf hrun hno
    have h2 := ih (writeSocketStep s ev) (writeSocketStep_inv s ev hwf hno).1
      (fun x hx => h x (List.mem_cons_of_mem _ hx))
    simp only [writeSocket, List.length_cons]
    omega

/-- The work left is bounded by the payloads in flight. -/
theorem workLeft_le (s : Writer) (hwf : s.wellFormed) :
    workLeft s ≤ 3 * (inFlight s).length + 1 := by
  rcases s with ⟨pc, q, closed, w, conn⟩
  cases pc <;> simp only [workLeft, inFlight, List.length_cons, List.length_append] <;> omega

/-- With no work left the writer is idle or has returned, and holds nothing. -/
theorem workLeft_eq_zero (s : Writer) (hwf : s.wellFormed) (h : workLeft s = 0) :
    s.qSend = [] ∧ (s.pc = WriterPc.select ∨ s.pc = WriterPc.returned) := by
  rcases s with ⟨pc, q, closed, w, conn⟩
  cases pc with
  | select =>
    refine ⟨?_, Or.inl rfl⟩
    simpa [workLeft] using h
  | received m => simp [workLeft] at h
  | draining i n => simp [workLeft] at h
  | returned =>
    simp only [Writer.wellFormed] at hwf
    exact ⟨hwf.1, Or.inr rfl⟩

/-- After any schedule without failure, enough actions of the writer write every
payload enqueued and leave the writer with nothing in hand. -/
theorem writeSocket_flush (evs acts : List WriterEvent)
    (hno : ∀ ev ∈ evs, noFailure ev = true)
    (hacts : ∀ ev ∈ acts, isRun ev = true ∧ noFailure ev = true)
    (hlen : 3 * (enqueued false evs).length + 1 ≤ acts.length) :
    (writeSocket {} (evs ++ acts)).wellFormed ∧
      dataChunks (writeSocket {} (evs ++ acts)).conn = enqueued false evs ∧
      (writeSocket {} (evs ++ acts)).qSend = [] ∧
      ((writeSocket {} (evs ++ acts)).pc = WriterPc.select ∨
        (writeSocket {} (evs ++ acts)).pc = WriterPc.returned) := by
  obtain ⟨hwf, hinv⟩ := writeSocket_inv evs {} (by simp [Writer.wellFormed]) hno
  have hfifo : dataChunks (writeSocket {} evs).conn ++ inFlight (writeSocket {} evs) =
      enqueued false evs := by
    simpa [dataChunks, inFlight] using hinv
  have hbound : (inFlight (writeSocket {} evs)).length ≤ (enqueued false evs).length := by
    rw [← hfifo]; simp
  have hw := writeSocket_work acts _ hwf hacts
  have hle := workLeft_le _ hwf
  obtain ⟨hwf2, hinv2⟩ := writeSocket_inv acts _ hwf (fun ev hev => (hacts ev hev).2)
  rw [writeSocket_append]
  obtain ⟨hq, hpc⟩ := workLeft_eq_zero _ hwf2 (by omega)
  refine ⟨hwf2, ?_, hq, hpc⟩
  have hfl : inFlight (writeSocket (writeSocket {} evs) acts) = [] := by
    rcases hpc with h | h <;> simp [inFlight, h, hq]
  rw [hfl, enqueued_of_runs acts _ hacts, hfifo] at hinv2
  simpa using hinv2

/-- Coalescing: once an item is dequeued, the message the writer opens next is
that item followed by the items queued at that instant, whatever is enqueued
while it is written. -/
theorem writeSocket_coalesce (rest : List WriterEvent) (s : Writer) (message : Bytes)
    (e : ConnErrs) (hpc : s.pc = WriterPc.received message)
    (he : noFailure (WriterEvent.run e) = true)
    (hrest : ∀ ev ∈ rest, noFailure ev = true ∧ isTick ev = false)
    (hcount : (rest.filter isRun).length = s.qSend.length + 1) :
    (writeSocket s (WriterEvent.run e :: rest)).pc = WriterPc.select ∧
      (writeSocket s (WriterEvent.run e :: rest)).conn =
        s.conn ++ [WireMessage.text (message :: s.qSend)] ∧
      (writeSocket s (WriterEvent.run e :: rest)).qSend = enqueued s.closed rest := by
  rcases s with ⟨pc, q, closed, w, conn⟩
  simp only at hpc hcount
  subst hpc
  simp only [noFailure, Bool.and_eq_true, Bool.not_eq_true'] at he
  obtain ⟨⟨⟨h1, h2⟩, _⟩, _⟩ := he
  have hstep : writeSocketStep ⟨WriterPc.received message, q, closed, w, conn⟩
      (WriterEvent.run e) = ⟨WriterPc.draining 0 q.length, q, closed, [message], conn⟩ := by
    simp [writeSocketStep, h1, h2]
  obtain ⟨h3, h4, h5⟩ := writeSocket_drain rest
    ⟨WriterPc.draining 0 q.length, q, closed, [message], conn⟩ 0 q.length rfl (by simp) hrest
    (by simpa using hcount)
  simp only [writeSocket, hstep]
  exact ⟨h3, by simpa using h4, by simpa using h5⟩

/-- C7. FIFO preservation in the Writer, provided no write fails. (1) Along
every schedule, the chunks of the text messages written, followed by the
payloads the writer still holds or that are queued, are exactly the payloads
enqueued, in enqueue order. (2) The payloads are written: after the schedule,
`3 N + 1` actions of the writer (`N` the number of payloads enqueued) write all
of them, in enqueue order, also when the channel has been closed with items
still buffered. (3) Coalescing: once an item is dequeued, the next message
written is that item followed by exactly the items queued when the message is
opened, in queue order, whatever is enqueued meanwhile; the later items stay
queued. (4) This state is reached: from an idle writer, sending `message` and
then `queued` and letting the writer act puts exactly `message :: queued` in one
message. -/
theorem writer_fifo (evs acts rest : List WriterEvent) (message : Bytes) (queued : List Bytes)
    (e : ConnErrs)
    (hno : ∀ ev ∈ evs, noFailure ev = true)
    (hacts : ∀ ev ∈ acts, isRun ev = true ∧ noFailure ev = true)
    (hlen : 3 * (enqueued false evs).length + 1 ≤ acts.length) :
    (dataChunks (writeSocket {} evs).conn ++ inFlight (writeSocket {} evs) = enqueued false evs ∧
      dataBytes (writeSocket {} evs).conn ++ (inFlight (writeSocket {} evs)).flatten =
        (enqueued false evs).flatten) ∧
    (dataChunks (writeSocket {} (evs ++ acts)).conn = enqueued false evs ∧
      dataBytes (writeSocket {} (evs ++ acts)).conn = (enqueued false evs).flatten ∧
      (writeSocket {} (evs ++ acts)).qSend = [] ∧
      ((writeSocket {} (evs ++ acts)).pc = WriterPc.select ∨
        (writeSocket {} (evs ++ acts)).pc = WriterPc.returned)) ∧
    ((writeSocket {} evs).pc = WriterPc.received message →
      noFailure (WriterEvent.run e) = true →
      (∀ ev ∈ rest, noFailure ev = true ∧ isTick ev = false) →
      (rest.filter isRun).length = (writeSocket {} evs).qSend.length + 1 →
      (writeSocket (writeSocket {} evs) (WriterEvent.run e :: rest)).pc = WriterPc.select ∧
      (writeSocket (writeSocket {} evs) (WriterEvent.run e :: rest)).conn =
        (writeSocket {} evs).conn ++
          [WireMessage.text (message :: (writeSocket {} evs).qSend)] ∧
      (writeSocket (writeSocket {} evs) (WriterEvent.run e :: rest)).qSend =
        enqueued (writeSocket {} evs).closed rest) ∧
    ((∀ ev ∈ evs, ev ≠ WriterEvent.closeQueue) →
      noFailure (WriterEvent.run e) = true →
      (∀ ev ∈ rest, noFailure ev = true ∧ isTick ev = false) →
      (rest.filter isRun).length = queued.length + 1 →
      (writeSocket {} (evs ++ acts ++ (message :: queued).map WriterEvent.send ++
          WriterEvent.run e :: WriterEvent.run e :: rest)).conn =
        (writeSocket {} (evs ++ acts)).conn ++ [WireMessage.text (message :: queued)] ∧
      dataChunks (writeSocket {} (evs ++ acts ++ (message :: queued).map WriterEvent.send ++
          WriterEvent.run e :: WriterEvent.run e :: rest)).conn =
        enqueued false evs ++ message :: queued ∧
      (writeSocket {} (evs ++ acts ++ (message :: queued).map WriterEvent.send ++
          WriterEvent.run e :: WriterEvent.run e :: rest)).qSend = enqueued false rest) := by
  obtain ⟨_, hinv⟩ := writeSocket_inv evs {} (by simp [Writer.wellFormed]) hno
  have hfifo : dataChunks (writeSocket {} evs).conn ++ inFlight (writeSocket {} evs) =
      enqueued false evs := by
    simpa [dataChunks, inFlight] using hinv
  obtain ⟨hwf, hflush, hq, hpc⟩ := writeSocket_flush evs acts hno hacts hlen
  refine ⟨⟨hfifo, ?_⟩, ⟨hflush, ?_, hq, hpc⟩, ?_, ?_⟩
  · rw [← hfifo]; simp [dataBytes]
  · rw [dataBytes, hflush]
  · intro hrecv he hrest hcount
    exact writeSocket_coalesce rest _ message e hrecv he hrest hcount
  · intro hopen he hrest hcount
    have hnever : ∀ ev ∈ evs ++ acts, ev ≠ WriterEvent.closeQueue := by
      intro ev hev
      rcases List.mem_append.mp hev with h | h
      · exact hopen ev h
      · intro hc
        have := (hacts ev h).1
        rw [hc] at this
        simp [isRun] at this
    have hclosed : (writeSocket {} (evs ++ acts)).closed = false := by
      rw [writeSocket_closed _ _ hnever]
    have hsel : (writeSocket {} (evs ++ acts)).pc = WriterPc.select := by
      rcases hpc with h | h
      · exact h
      · have hw := hwf
        simp only [Writer.wellFormed, h] at hw
        rw [hclosed] at hw
        simp at hw
    obtain ⟨i1, i2, i3⟩ := writeSocket_idle ((message :: queued).map WriterEvent.send)
      (writeSocket {} (evs ++ acts)) hsel (by
        intro ev hev
        obtain ⟨m, _, rfl⟩ := List.mem_map.mp hev
        simp [isRun, isTick])
    rw [hq, hclosed, enqueued_sends, List.nil_append] at i3
    have hcl : (writeSocket (writeSocket {} (evs ++ acts))
        ((message :: queued).map WriterEvent.send)).closed = false := by
      rw [writeSocket_closed _ _ (by
        intro ev hev
        obtain ⟨m, _, rfl⟩ := List.mem_map.mp hev
        simp), hclosed]
    generalize hs : writeSocket (writeSocket {} (evs ++ acts))
      ((message :: queued).map WriterEvent.send) = s at i1 i2 i3 hcl
    rcases s with ⟨pc, q, closed, w, conn⟩
    simp only at i1 i2 i3 hcl
    subst i1 i3 hcl
    have hrecv : writeSocketStep ⟨WriterPc.select, message :: queued, false, w, conn⟩
        (WriterEvent.run e) = ⟨WriterPc.received message, queued, false, w, conn⟩ := by
      simp [writeSocketStep]
    obtain ⟨_, c2, c3⟩ := writeSocket_coalesce rest
      ⟨WriterPc.received message, queued, false, w, conn⟩ message e rfl he hrest
      (by simpa using hcount)
    have hrun : writeSocket {} (evs ++ acts ++ (message :: queued).map WriterEvent.send ++
        WriterEvent.run e :: WriterEvent.run e :: rest) =
        writeSocket ⟨WriterPc.received message, queued, false, w, conn⟩
          (WriterEvent.run e :: rest) := by
      rw [writeSocket_append, writeSocket_append (evs ++ acts), hs]
      conv_lhs => rw [writeSocket]
      rw [hrecv]
    rw [hrun]
    simp only [] at c2 c3
    refine ⟨by rw [c2, i2], ?_, c3⟩
    rw [c2, i2, dataChunks_append, hflush]
    simp [dataChunks]

/-- C7, at two schedules. In the first the channel is closed while two payloads
are buffered: ten actions of the writer still write the three payloads, in one
message, then the close message. In the second, after an idle writer, sending
`[4]` then `[5]` and letting the writer act while `[3]` is sent puts `[4]` and
`[5]` in one message and leaves `[3]` queued. -/
theorem writer_fifo_witness :
    (∀ ev ∈ sampleClosing, noFailure ev = true) ∧
      (∀ ev ∈ sampleRuns, isRun ev = true ∧ noFailure ev = true) ∧
      3 * (enqueued false sampleClosing).length + 1 ≤ sampleRuns.length ∧
      enqueued false sampleClosing = [[1], [2], [3]] ∧
      dataChunks (writeSocket {} (sampleClosing ++ sampleRuns)).conn =
        enqueued false sampleClosing ∧
      (writeSocket {} (sampleClosing ++ sampleRuns)).conn =
        [WireMessage.text [[1], [2], [3]], WireMessage.close] ∧
      (writeSocket {} (([] : List WriterEvent) ++ [WriterEvent.run {}] ++
          ([4] :: [[5]]).map WriterEvent.send ++
          WriterEvent.run {} :: WriterEvent.run {} :: sampleRest)).conn =
        (writeSocket {} (([] : List WriterEvent) ++ [WriterEvent.run {}])).conn ++
          [WireMessage.text ([4] :: [[5]])] :=
  ⟨by decide, by decide, by decide, by decide,
    (writer_fifo sampleClosing sampleRuns [] [] [] {} (by decide) (by decide) (by decide)).2.1.1,
    by decide,
    ((writer_fifo [] [WriterEvent.run {}] sampleRest [4] [[5]] {} (by decide) (by decide)
      (by decide)).2.2.2 (by decide) (by decide) (by decide) (by decide)).1⟩

/-! ## Inbound Reader: unregistration -/

/-- The loop forwards the frames read before the first error, and unregisters
with the player paired with that error, if there is one. -/
theorem readSocket_eq (reads : List (Player × ReadResult)) (r : Reader) :
    readSocket r reads =
      { qRecv := r.qRecv ++ (reads.takeWhile isMessage).filterMap frameOf,
        gmUnregister := r.gmUnregister ++
          (((reads.dropWhile isMessage).head?).map Prod.fst).toList } := by
  induction reads generalizing r with
  | nil => simp [readSocket]
  | cons x xs ih =>
    rcases x with ⟨p, m | k⟩
    · simp [readSocket, ih, isMessage, frameOf]
    · simp [readSocket, isMessage]

/-- C8. Single unregister: for every sequence of read results, the Reader sends
at most one unregister notification. It forwards to the inbound queue, in the
order read, the frames read before the first failed read and no other; it sends
the notification exactly when a read fails, at the first failure whatever its
kind, carrying the state of the player at that moment. -/
theorem single_unregister (reads : List (Player × ReadResult)) :
    (readSocket {} reads).gmUnregister.length ≤ 1 ∧
      (readSocket {} reads).qRecv = (reads.takeWhile isMessage).filterMap frameOf ∧
      (readSocket {} reads).gmUnregister =
        (((reads.dropWhile isMessage).head?).map Prod.fst).toList ∧
      ((∀ x ∈ reads, isMessage x = true) →
        (readSocket {} reads).gmUnregister = [] ∧
        (readSocket {} reads).qRecv = reads.filterMap frameOf) ∧
      (∀ (pre post : List (Player × ReadResult)) (p : Player) (k : Bool),
        reads = pre ++ (p, ReadResult.failure k) :: post →
        (∀ x ∈ pre, isMessage x = true) →
        (readSocket {} reads).gmUnregister = [p] ∧
        (readSocket {} reads).qRecv = pre.filterMap frameOf) := by
  rw [readSocket_eq]
  refine ⟨?_, by simp, by simp, ?_, ?_⟩
  · cases h : (reads.dropWhile isMessage).head? <;> simp
  · intro hall
    have h1 : reads.takeWhile isMessage = reads := List.takeWhile_eq_self_iff.mpr hall
    have h2 : reads.dropWhile isMessage = [] := List.dropWhile_eq_nil_iff.mpr hall
    simp [h1, h2]
  · intro pre post p k hreads hpre
    subst hreads
    have h1 : (pre ++ (p, ReadResult.failure k) :: post).takeWhile isMessage = pre := by
      rw [List.takeWhile_append_of_pos hpre]
      simp [List.takeWhile, isMessage]
    have h2 : (pre ++ (p, ReadResult.failure k) :: post).dropWhile isMessage =
        (p, ReadResult.failure k) :: post := by
      rw [List.dropWhile_append_of_pos hpre]
      simp [List.dropWhile, isMessage]
    simp [h1, h2]

/-- C8, at a connection that delivers two frames and then fails: one
notification, carrying the player as it is at the failure, and the two frames
forwarded in order. -/
theorem single_unregister_witness :
    (readSocket {} sampleReads).gmUnregister.length ≤ 1 ∧
      (readSocket {} sampleReads).gmUnregister =
        [Player.mk "Ada" Status.ReadyToPlay [invalidCommandError sampleJson]] ∧
      (readSocket {} sampleReads).qRecv = [frameAda, frameWizard] :=
  ⟨(single_unregister sampleReads).1, by decide, by decide⟩

end ClientHandler
